import Mathlib

/-!
# Verification of the pyxclib batched data-loading and shortlist-update subsystem

Shallow embedding of `src/xclib/data/data_loader.py` (`DataloaderBase`,
`Dataloader`, `DataloaderShortlist`).  Sparse matrices are modelled as a shape
together with a list of `(row, col, value)` triples; the numpy / scipy
operations the file calls (`np.array_split`, `scipy.sparse.csc_matrix`) are
embedded following their documented semantics; operations of the repository's
`features`/`labels` modules that are not part of the sources under study are
modelled from the specification and marked as such.
-/

namespace XC

/-- A scipy-style sparse matrix: a logical shape plus stored `(row, col, value)`
triples.  A canonical matrix has pairwise-distinct positions; duplicate triples
(as produced by a coo-style constructor) are summed by `matVal`. -/
structure SparseMat where
  rows : Nat
  cols : Nat
  entries : List (Nat × Nat × Int)
deriving Repr, DecidableEq

/-- Value of the matrix at `(i, j)`: the sum of all stored triples at that
position (scipy sums duplicate entries when converting coo → csc). -/
def matVal (M : SparseMat) (i j : Nat) : Int :=
  ((M.entries.filter (fun e => e.1 == i && e.2.1 == j)).map (fun e => e.2.2)).sum

/-- Number of columns of row `i` holding a non-zero value. -/
def rowNNZ (M : SparseMat) (i : Nat) : Nat :=
  ((List.range M.cols).filter (fun j => decide (matVal M i j ≠ 0))).length

/-- Canonical well-formedness of a stored label matrix: indices in range,
strictly positive values (ground-truth presence form), distinct positions. -/
def WF (M : SparseMat) : Prop :=
  (∀ e ∈ M.entries, e.1 < M.rows ∧ e.2.1 < M.cols ∧ 0 < e.2.2) ∧
    (M.entries.map (fun e => (e.1, e.2.1))).Nodup

instance (M : SparseMat) : Decidable (WF M) := by
  unfold WF; infer_instance

/-- Stored row indices of column `j`; this is what
`LabelsBase.index_select(j).indices` yields on the csc layout.
Modelled from the spec: the label matrix is column-addressable and exposes the
non-zero row positions of a column. -/
def colIndices (M : SparseMat) (j : Nat) : List Nat :=
  (M.entries.filter (fun e => e.2.1 == j)).map (fun e => e.1)

/-- Stored column indices of row `i`; this is `labels.data.tolil().rows[idx]`
in `update_data_shortlist`. -/
def rowIndices (M : SparseMat) (i : Nat) : List Nat :=
  (M.entries.filter (fun e => e.1 == i)).map (fun e => e.2.1)

/-! ## Batch partition (`DataloaderBase._gen_batches`) -/

/-- Section sizes of `np.array_split` when splitting `n` items into `k`
sections: the first `n % k` sections get `n / k + 1` elements, the remaining
`k - n % k` sections get `n / k` elements. -/
def arraySplitSizes (n k : Nat) : List Nat :=
  List.replicate (n % k) (n / k + 1) ++ List.replicate (k - n % k) (n / k)

/-- Cut the ascending index range starting at `start` into consecutive chunks
of the given sizes. -/
def chunksFrom (start : Nat) : List Nat → List (List Nat)
  | [] => []
  | s :: rest => (List.range s).map (· + start) :: chunksFrom (start + s) rest

/-- `np.array_split(np.arange n, k)` for `k > 0`. -/
def arraySplit (n k : Nat) : List (List Nat) :=
  chunksFrom 0 (arraySplitSizes n k)

/-- One axis of `DataloaderBase._gen_batches`:
`offset = 0 if n % batch_size == 0 else 1`,
`num_batches = n // batch_size + offset`, then
`np.array_split(np.arange(n), num_batches)`.
`n % batch_size` raises `ZeroDivisionError` when `batch_size = 0`, and
`np.array_split` raises when the number of sections is `≤ 0`. -/
def splitBatches (n batch_size : Nat) : Except String (List (List Nat)) :=
  if batch_size = 0 then .error "ZeroDivisionError: integer division or modulo by zero"
  else
    let offset := if n % batch_size = 0 then 0 else 1
    let num_batches := n / batch_size + offset
    if num_batches = 0 then .error "number sections must be larger than 0."
    else .ok (arraySplit n num_batches)

/-- `DataloaderBase._gen_batches`: dispatch on `batch_order`; any string other
than `"labels"` / `"instances"` raises `NotImplementedError`. -/
def gen_batches (batch_order : String) (num_labels num_instances batch_size : Nat) :
    Except String (List (List Nat)) :=
  if batch_order = "labels" then splitBatches num_labels batch_size
  else if batch_order = "instances" then splitBatches num_instances batch_size
  else .error "Unknown order for batching!"

/-! ## Lemmas about the partition -/

theorem chunksFrom_map_length (sizes : List Nat) (start : Nat) :
    (chunksFrom start sizes).map List.length = sizes := by
  induction sizes generalizing start with
  | nil => rfl
  | cons s rest ih => simp [chunksFrom, ih]

theorem chunksFrom_flatten (sizes : List Nat) (start : Nat) :
    (chunksFrom start sizes).flatten = (List.range sizes.sum).map (· + start) := by
  induction sizes generalizing start with
  | nil => simp [chunksFrom]
  | cons s rest ih =>
      simp only [chunksFrom, List.flatten_cons, ih, List.sum_cons, List.range_add,
        List.map_append, List.map_map]
      congr 1
      apply List.map_congr_left
      intro a _
      simp only [Function.comp_apply]
      omega

theorem arraySplitSizes_sum (n k : Nat) (hk : 0 < k) :
    (arraySplitSizes n k).sum = n := by
  have hlt : n % k < k := Nat.mod_lt _ hk
  have hmd : n % k + k * (n / k) = n := Nat.mod_add_div n k
  have hle : (n % k) * (n / k) ≤ k * (n / k) :=
    Nat.mul_le_mul_right _ (Nat.le_of_lt hlt)
  simp only [arraySplitSizes, List.sum_append, List.sum_replicate, smul_eq_mul,
    Nat.mul_succ, Nat.sub_mul]
  omega

theorem arraySplitSizes_length (n k : Nat) (hk : 0 < k) :
    (arraySplitSizes n k).length = k := by
  have hlt : n % k < k := Nat.mod_lt _ hk
  simp [arraySplitSizes]
  omega

theorem arraySplitSizes_mem (n k : Nat) (s : Nat) (hs : s ∈ arraySplitSizes n k) :
    s = n / k ∨ s = n / k + 1 := by
  simp only [arraySplitSizes, List.mem_append, List.mem_replicate] at hs
  rcases hs with ⟨_, h⟩ | ⟨_, h⟩ <;> omega

/-- For `B > 0`, the section count `n // B + (0 if n % B == 0 else 1)` computed
by `_gen_batches` equals `⌈n / B⌉ = (n + B - 1) / B`. -/
theorem sections_eq_ceil (n B : Nat) (hB : 0 < B) :
    n / B + (if n % B = 0 then 0 else 1) = (n + B - 1) / B := by
  have hmd : n % B + B * (n / B) = n := Nat.mod_add_div n B
  by_cases h : n % B = 0
  · rw [if_pos h]
    have hn : n + B - 1 = B * (n / B) + (B - 1) := by omega
    rw [hn, Nat.mul_add_div hB, Nat.div_eq_of_lt (show B - 1 < B by omega)]
  · rw [if_neg h]
    have hr : 1 ≤ n % B := Nat.one_le_iff_ne_zero.mpr h
    have hlt : n % B < B := Nat.mod_lt _ hB
    have hn : n + B - 1 = B * (n / B + 1) + (n % B - 1) := by
      rw [Nat.mul_add, Nat.mul_one]; omega
    rw [hn, Nat.mul_add_div hB, Nat.div_eq_of_lt (show n % B - 1 < B by omega)]

theorem splitBatches_ok (n B : Nat) (hn : 0 < n) (hB : 0 < B) :
    splitBatches n B =
      .ok (arraySplit n (n / B + (if n % B = 0 then 0 else 1))) := by
  have hk : 0 < n / B + (if n % B = 0 then 0 else 1) := by
    by_cases h : n % B = 0
    · have hbn : B * (n / B) = n := by
        have := Nat.mod_add_div n B; omega
      simp only [h, if_pos rfl]
      rcases Nat.eq_zero_or_pos (n / B) with h0 | h0
      · rw [h0, Nat.mul_zero] at hbn; omega
      · omega
    · simp [h]
  simp only [splitBatches, if_neg (Nat.pos_iff_ne_zero.mp hB)]
  simp only [if_neg (Nat.pos_iff_ne_zero.mp hk)]

/-- **C1.** For every total count `N > 0` and target batch size `B > 0`, the
partition computed by `_gen_batches` (`splitBatches`) consists of
`⌈N / B⌉ = (N + B - 1) / B` chunks, whose sizes sum to `N`, which follow numpy
`array_split` semantics (the first `N mod k` chunks get `N / k + 1` elements,
the rest `N / k`, where `k` is the chunk count), whose sizes pairwise differ by
at most `1`, and whose concatenation in order is exactly the ascending index
range `[0, N)`.  Determinism in `N` and `B` is immediate because
`splitBatches` is a pure function of `N` and `B`. -/
theorem gen_batches_partition (N B : Nat) (hN : 0 < N) (hB : 0 < B) :
    ∃ ch, splitBatches N B = .ok ch ∧
      ch.length = (N + B - 1) / B ∧
      (ch.map List.length).sum = N ∧
      ch.map List.length =
        List.replicate (N % ch.length) (N / ch.length + 1) ++
          List.replicate (ch.length - N % ch.length) (N / ch.length) ∧
      (∀ c1 ∈ ch, ∀ c2 ∈ ch, c1.length ≤ c2.length + 1) ∧
      ch.flatten = List.range N := by
  set k := N / B + (if N % B = 0 then 0 else 1) with hkdef
  have hk : 0 < k := by
    rw [hkdef, sections_eq_ceil N B hB]
    have : 1 ≤ N + B - 1 := by omega
    exact Nat.div_pos (by omega) hB
  refine ⟨arraySplit N k, splitBatches_ok N B hN hB, ?_, ?_, ?_, ?_, ?_⟩
  · have : (arraySplit N k).length = k := by
      have := chunksFrom_map_length (arraySplitSizes N k) 0
      have hlen := congrArg List.length this
      simpa [arraySplit, arraySplitSizes_length N k hk] using hlen
    rw [this, hkdef, sections_eq_ceil N B hB]
  · rw [arraySplit, chunksFrom_map_length, arraySplitSizes_sum N k hk]
  · have hlen : (arraySplit N k).length = k := by
      have := congrArg List.length (chunksFrom_map_length (arraySplitSizes N k) 0)
      simpa [arraySplit, arraySplitSizes_length N k hk] using this
    rw [hlen, arraySplit, chunksFrom_map_length]
    rfl
  · intro c1 h1 c2 h2
    have m1 : c1.length ∈ (arraySplit N k).map List.length := List.mem_map_of_mem _ h1
    have m2 : c2.length ∈ (arraySplit N k).map List.length := List.mem_map_of_mem _ h2
    rw [arraySplit, chunksFrom_map_length] at m1 m2
    rcases arraySplitSizes_mem N k _ m1 with h | h <;>
      rcases arraySplitSizes_mem N k _ m2 with h' | h' <;> omega
  · rw [arraySplit, chunksFrom_flatten, arraySplitSizes_sum N k hk]
    simp

/-- Witness for C1 at `N = 5`, `B = 2`: three chunks `[[0,1],[2,3],[4]]`. -/
theorem gen_batches_partition_witness :
    0 < 5 ∧ 0 < 2 ∧
      ∃ ch, splitBatches 5 2 = .ok ch ∧
        ch.length = (5 + 2 - 1) / 2 ∧
        (ch.map List.length).sum = 5 ∧
        ch.map List.length =
          List.replicate (5 % ch.length) (5 / ch.length + 1) ++
            List.replicate (ch.length - 5 % ch.length) (5 / ch.length) ∧
        (∀ c1 ∈ ch, ∀ c2 ∈ ch, c1.length ≤ c2.length + 1) ∧
        ch.flatten = List.range 5 :=
  ⟨by decide, by decide, gen_batches_partition 5 2 (by decide) (by decide)⟩

/-! ## Loader state and batch materializers -/

/-- The feature store (external collaborator): row count, column count and an
opaque data handle shared by every materialized batch. -/
structure FeatureSet where
  num_instances : Nat
  num_features : Nat
  data : List (List Int)
deriving Repr, DecidableEq

/-- One record produced by `Dataloader._create_label_batch`:
`{'ind': None, 'data': features.data, 'Y': batch_labels}`. -/
structure LabelItem where
  ind : Option (List Nat)
  data : List (List Int)
  Y : List Int
deriving Repr, DecidableEq

/-- Modelled from the spec: `labels.index_select(indices, axis=0)` — the label
matrix rows selected by `idxs`, in that order, preserving the sparse format. -/
def rowSelect (M : SparseMat) (idxs : List Nat) : SparseMat :=
  { rows := idxs.length, cols := M.cols,
    entries :=
      ((List.range idxs.length).map (fun k =>
        (M.entries.filter (fun e => e.1 == idxs.getD k 0)).map
          (fun e => (k, e.2.1, e.2.2)))).flatten }

/-- The record produced by `DataloaderBase._create_instance_batch`:
`{'data': features.data, 'ind': batch_indices, 'Y': labels.index_select(batch_indices, axis=0)}`. -/
structure InstanceItem where
  data : List (List Int)
  ind : List Nat
  Y : SparseMat
deriving Repr, DecidableEq

/-- Output of `Dataloader._create_batch`, which dispatches on `batch_order`. -/
inductive BatchOut where
  | labelB : List LabelItem → BatchOut
  | instanceB : InstanceItem → BatchOut
deriving Repr, DecidableEq

/-- The loader's mutable attributes after `construct`. -/
structure LoaderState where
  features : FeatureSet
  labels : SparseMat
  num_labels_ : Nat
  valid_labels : Option (List Nat)
  batch_size : Nat
  batch_order : String
  batches : List (List Nat)
deriving Repr, DecidableEq

/-- The `num_labels` read-only property: `self.labels.num_labels`. -/
def num_labels (s : LoaderState) : Nat := s.labels.cols

/-- The numpy scatter write `batch_labels[pos_indices] = 1`, one index at a
time (list update semantics; indices are in range for well-formed labels). -/
def scatterOnes (v : List Int) : List Nat → List Int
  | [] => v
  | i :: rest => scatterOnes (v.set i 1) rest

/-- The dense one-vs-all target vector `Dataloader._create_label_batch` builds
for label `j`: `-1 * np.ones((num_instances,))` followed by
`batch_labels[pos_indices] = 1` where `pos_indices` are the stored row indices
of column `j`. -/
def denseTarget (M : SparseMat) (n j : Nat) : List Int :=
  scatterOnes (List.replicate n (-1)) (colIndices M j)

/-- `Dataloader._create_label_batch`: one fresh record per label index of the
chunk.  The method only reads `self`, so the threaded state is returned
unchanged. -/
def create_label_batch (s : LoaderState) (chunk : List Nat) :
    List LabelItem × LoaderState :=
  (chunk.map (fun j =>
    { ind := none, data := s.features.data,
      Y := denseTarget s.labels s.features.num_instances j }), s)

/-- `DataloaderBase._create_instance_batch`; reads `self` only. -/
def create_instance_batch (s : LoaderState) (chunk : List Nat) :
    InstanceItem × LoaderState :=
  ({ data := s.features.data, ind := chunk, Y := rowSelect s.labels chunk }, s)

/-- `Dataloader._create_batch`: dispatch on `batch_order`. -/
def create_batch (s : LoaderState) (chunk : List Nat) : BatchOut × LoaderState :=
  if s.batch_order = "labels" then
    (BatchOut.labelB (create_label_batch s chunk).1, (create_label_batch s chunk).2)
  else
    (BatchOut.instanceB (create_instance_batch s chunk).1,
      (create_instance_batch s chunk).2)

/-! ## Lemmas about the dense target vector -/

theorem scatterOnes_length (l : List Nat) (v : List Int) :
    (scatterOnes v l).length = v.length := by
  induction l generalizing v with
  | nil => rfl
  | cons a l ih => simp [scatterOnes, ih]

theorem scatterOnes_getD (l : List Nat) (v : List Int) (i : Nat) (hi : i < v.length) :
    (scatterOnes v l).getD i 0 = if i ∈ l then 1 else v.getD i 0 := by
  induction l generalizing v with
  | nil => simp [scatterOnes]
  | cons a l ih =>
      rw [scatterOnes, ih (v.set a 1) (by simpa using hi)]
      by_cases hmem : i ∈ l
      · simp [hmem]
      · rw [if_neg hmem, List.getD_eq_getElem _ _ (by simpa using hi),
          List.getElem_set]
        by_cases hia : a = i
        · rw [if_pos hia, if_pos (by simp [hia.symm])]
        · rw [if_neg hia, if_neg (by
            simp only [List.mem_cons]
            rintro (h | h)
            · exact hia h.symm
            · exact hmem h)]
          rw [List.getD_eq_getElem _ _ hi]

theorem nodup_colIndices_aux (l : List (Nat × Nat × Int)) (j : Nat)
    (h : (l.map (fun e => (e.1, e.2.1))).Nodup) :
    ((l.filter (fun e => e.2.1 == j)).map (fun e => e.1)).Nodup := by
  induction l with
  | nil => simp
  | cons e l ih =>
      rw [List.map_cons, List.nodup_cons] at h
      by_cases he : e.2.1 = j
      · rw [List.filter_cons_of_pos (by simpa using he), List.map_cons,
          List.nodup_cons]
        refine ⟨?_, ih h.2⟩
        intro hmem
        rcases List.mem_map.mp hmem with ⟨e', he', heq⟩
        rcases List.mem_filter.mp he' with ⟨he'l, he'j⟩
        apply h.1
        have hj' : e'.2.1 = j := by simpa using he'j
        have hpos : (e'.1, e'.2.1) = (e.1, e.2.1) := by
          rw [heq, hj', he]
        exact List.mem_map.mpr ⟨e', he'l, hpos⟩
      · rw [List.filter_cons_of_neg (by simpa using he)]
        exact ih h.2

theorem mem_colIndices (M : SparseMat) (j i : Nat) :
    i ∈ colIndices M j ↔ ∃ v, (i, j, v) ∈ M.entries := by
  constructor
  · intro h
    rcases List.mem_map.mp h with ⟨e, he, hi⟩
    rcases List.mem_filter.mp he with ⟨hel, hej⟩
    refine ⟨e.2.2, ?_⟩
    have hj : e.2.1 = j := by simpa using hej
    have : e = (i, j, e.2.2) := by
      obtain ⟨a, b, c⟩ := e
      simp_all
    rwa [this] at hel
  · rintro ⟨v, hv⟩
    exact List.mem_map.mpr ⟨(i, j, v), List.mem_filter.mpr ⟨hv, by simp⟩, rfl⟩

theorem colIndices_lt_rows (M : SparseMat) (j : Nat) (hwf : WF M) :
    ∀ x ∈ colIndices M j, x < M.rows := by
  intro x hx
  rcases List.mem_map.mp hx with ⟨e, he, hxe⟩
  rcases List.mem_filter.mp he with ⟨hel, _⟩
  exact hxe ▸ (hwf.1 e hel).1

theorem denseTarget_eq_map (M : SparseMat) (n j : Nat) :
    denseTarget M n j =
      (List.range n).map (fun i => if i ∈ colIndices M j then 1 else -1) := by
  apply List.ext_getElem
  · simp [denseTarget, scatterOnes_length]
  · intro i h1 h2
    have hi : i < n := by simpa using h2
    have hrep : i < (List.replicate n (-1 : Int)).length := by simpa using hi
    have hd : (denseTarget M n j).getD i 0 =
        if i ∈ colIndices M j then 1 else (List.replicate n (-1 : Int)).getD i 0 :=
      scatterOnes_getD (colIndices M j) (List.replicate n (-1)) i hrep
    rw [List.getD_eq_getElem _ _ h1] at hd
    rw [hd, List.getElem_map, List.getElem_range]
    by_cases hmem : i ∈ colIndices M j
    · rw [if_pos hmem, if_pos hmem]
    · rw [if_neg hmem, if_neg hmem,
        List.getD_eq_getElem _ _ hrep, List.getElem_replicate]

theorem length_filter_range_mem (n : Nat) (l : List Nat) (h1 : l.Nodup)
    (h2 : ∀ x ∈ l, x < n) :
    ((List.range n).filter (fun j => decide (j ∈ l))).length = l.length := by
  have hf : ((List.range n).filter (fun j => decide (j ∈ l))).Nodup :=
    (List.nodup_range (n := n)).filter _
  have hiff : ∀ a, a ∈ (List.range n).filter (fun j => decide (j ∈ l)) ↔ a ∈ l := by
    intro a
    constructor
    · intro h
      have := (List.mem_filter.mp h).2
      simpa using this
    · intro h
      exact List.mem_filter.mpr ⟨List.mem_range.mpr (h2 a h), by simpa using h⟩
  exact ((List.perm_ext_iff_of_nodup hf h1).2 hiff).length_eq

theorem denseTarget_count (M : SparseMat) (n j : Nat) (hwf : WF M)
    (hn : M.rows ≤ n) :
    (denseTarget M n j).count 1 = (colIndices M j).length := by
  rw [denseTarget_eq_map]
  have hnd : (colIndices M j).Nodup := nodup_colIndices_aux M.entries j hwf.2
  have hb : ∀ x ∈ colIndices M j, x < n := fun x hx =>
    Nat.lt_of_lt_of_le (colIndices_lt_rows M j hwf x hx) hn
  rw [List.count, List.countP_map]
  have hcongr :
      (List.range n).countP
          ((fun x => x == 1) ∘ fun i => if i ∈ colIndices M j then (1 : Int) else -1) =
        (List.range n).countP (fun i => decide (i ∈ colIndices M j)) := by
    rw [List.countP_eq_length_filter, List.countP_eq_length_filter]
    congr 1
    apply List.filter_congr
    intro x _
    by_cases hx : x ∈ colIndices M j <;> simp [hx]
  rw [hcongr, List.countP_eq_length_filter]
  exact length_filter_range_mem n _ hnd hb

/-- **C2.** In label-major one-vs-all mode, for every label index `j` of a
chunk, `Dataloader._create_label_batch` produces a dense vector of length equal
to the instance count whose value is `+1` exactly at the row positions where
column `j` of the label matrix has a positive entry and `-1` at every other
position; the number of `+1` entries equals the stored (non-zero) count of
column `j`; and every label of the chunk gets a fresh vector computed from its
own label index alone (no state is retained across labels: the batch is the
pointwise image of the chunk under a single per-label function). -/
theorem create_label_batch_ova (s : LoaderState) (chunk : List Nat)
    (hwf : WF s.labels) (hrows : s.labels.rows = s.features.num_instances) :
    (create_label_batch s chunk).1 =
      chunk.map (fun j =>
        { ind := none, data := s.features.data,
          Y := denseTarget s.labels s.features.num_instances j }) ∧
    ∀ j ∈ chunk,
      (denseTarget s.labels s.features.num_instances j).length =
        s.features.num_instances ∧
      (∀ i, i < s.features.num_instances →
        ((denseTarget s.labels s.features.num_instances j).getD i 0 = 1 ↔
          ∃ v, (i, j, v) ∈ s.labels.entries ∧ 0 < v) ∧
        ((¬ ∃ v, (i, j, v) ∈ s.labels.entries ∧ 0 < v) →
          (denseTarget s.labels s.features.num_instances j).getD i 0 = -1)) ∧
      (denseTarget s.labels s.features.num_instances j).count 1 =
        (colIndices s.labels j).length := by
  refine ⟨rfl, ?_⟩
  intro j _
  have hlen : (denseTarget s.labels s.features.num_instances j).length =
      s.features.num_instances := by
    simp [denseTarget, scatterOnes_length]
  refine ⟨hlen, ?_, denseTarget_count s.labels _ j hwf (le_of_eq hrows)⟩
  intro i hi
  have hrep : i < (List.replicate s.features.num_instances (-1 : Int)).length := by
    simpa using hi
  have hd := scatterOnes_getD (colIndices s.labels j)
    (List.replicate s.features.num_instances (-1)) i hrep
  have hmemiff : i ∈ colIndices s.labels j ↔
      ∃ v, (i, j, v) ∈ s.labels.entries ∧ 0 < v := by
    rw [mem_colIndices]
    constructor
    · rintro ⟨v, hv⟩
      exact ⟨v, hv, (hwf.1 _ hv).2.2⟩
    · rintro ⟨v, hv, _⟩
      exact ⟨v, hv⟩
  constructor
  · constructor
    · intro h1
      by_contra hne
      have hni : i ∉ colIndices s.labels j := fun hmem => hne (hmemiff.mp hmem)
      rw [if_neg hni, List.getD_eq_getElem _ _ hrep, List.getElem_replicate] at hd
      rw [denseTarget] at h1
      rw [h1] at hd
      exact absurd hd (by decide)
    · intro hv
      have hmem : i ∈ colIndices s.labels j := hmemiff.mpr hv
      rw [if_pos hmem] at hd
      exact hd
  · intro hnv
    have hni : i ∉ colIndices s.labels j := fun hmem => hnv (hmemiff.mp hmem)
    rw [if_neg hni, List.getD_eq_getElem _ _ hrep, List.getElem_replicate] at hd
    exact hd

/-- Concrete data for the C2 witness (the spec's scenario 1: 4 instances,
3 labels, positives `{(0,0), (1,1), (2,2)}`, label-major order). -/
def MC2 : SparseMat :=
  { rows := 4, cols := 3, entries := [(0, 0, 1), (1, 1, 1), (2, 2, 1)] }

def FC2 : FeatureSet :=
  { num_instances := 4, num_features := 2, data := [[1, 0], [0, 1], [1, 1], [1, 0]] }

def SC2 : LoaderState :=
  { features := FC2, labels := MC2, num_labels_ := 3, valid_labels := none,
    batch_size := 2, batch_order := "labels", batches := [[0, 1], [2]] }

/-- Witness for C2 on the spec's concrete scenario, chunk `[0, 1]`. -/
theorem create_label_batch_ova_witness :
    WF SC2.labels ∧ SC2.labels.rows = SC2.features.num_instances ∧
    ((create_label_batch SC2 [0, 1]).1 =
        [0, 1].map (fun j =>
          { ind := none, data := SC2.features.data,
            Y := denseTarget SC2.labels SC2.features.num_instances j }) ∧
      ∀ j ∈ [0, 1],
        (denseTarget SC2.labels SC2.features.num_instances j).length =
          SC2.features.num_instances ∧
        (∀ i, i < SC2.features.num_instances →
          ((denseTarget SC2.labels SC2.features.num_instances j).getD i 0 = 1 ↔
            ∃ v, (i, j, v) ∈ SC2.labels.entries ∧ 0 < v) ∧
          ((¬ ∃ v, (i, j, v) ∈ SC2.labels.entries ∧ 0 < v) →
            (denseTarget SC2.labels SC2.features.num_instances j).getD i 0 = -1)) ∧
        (denseTarget SC2.labels SC2.features.num_instances j).count 1 =
          (colIndices SC2.labels j).length) :=
  ⟨by decide, by decide, create_label_batch_ova SC2 [0, 1] (by decide) (by decide)⟩

/-- **C8.** Batch materialization is side-effect free and deterministic: the
state threaded through `_create_batch` comes back unchanged (the method only
reads `self.features` / `self.labels`), so a second call on the same chunk,
fed the state returned by the first call, produces the identical output. -/
theorem create_batch_pure (s : LoaderState) (chunk : List Nat) :
    (create_batch s chunk).2 = s ∧
      create_batch (create_batch s chunk).2 chunk = create_batch s chunk := by
  by_cases h : s.batch_order = "labels" <;>
    simp [create_batch, create_label_batch, create_instance_batch, h]

/-! ## Construction (`DataloaderBase.construct` and helpers) -/

/-- The constructor-level configuration strings and bounds. -/
structure Config where
  feature_type : String
  mode : String
  batch_order : String
  start_index : Nat
  end_index : Int
  batch_size : Nat
deriving Repr, DecidableEq

/-- `DataloaderBase.load_features`: dispatch on `feature_type`; any other
string raises `NotImplementedError("Unknown feature type!")`.  The feature
parsing itself is an external collaborator, so a successful load returns the
supplied feature set. -/
def load_features (feature_type : String) (f : FeatureSet) :
    Except String FeatureSet :=
  if feature_type = "sparse" then .ok f
  else if feature_type = "dense" then .ok f
  else .error "Unknown feature type!"

/-- Modelled from the spec: the column slice `labels[:, start:end]` of the
label matrix (`LabelsBase.__getitem__` is not among the sources under study).
Python slice semantics clamp both bounds to the column count; kept entries are
reindexed relative to the slice start. -/
def colSlice (M : SparseMat) (a b : Nat) : SparseMat :=
  { rows := M.rows, cols := min b M.cols - min a M.cols,
    entries :=
      (M.entries.filter (fun e =>
        decide (min a M.cols ≤ e.2.1 ∧ e.2.1 < min b M.cols))).map
        (fun e => (e.1, e.2.1 - min a M.cols, e.2.2)) }

/-- Modelled from the spec: `labels.remove_invalid()` keeps exactly the label
columns with at least one positive instance, records their original indices in
ascending order, and reindexes the matrix to the kept columns
(`LabelsBase.remove_invalid` is not among the sources under study). -/
def remove_invalid (M : SparseMat) : SparseMat × List Nat :=
  let valid := (List.range M.cols).filter
    (fun j => M.entries.any (fun e => e.2.1 == j && decide (0 < e.2.2)))
  ({ rows := M.rows, cols := valid.length,
     entries := (M.entries.filter (fun e => valid.contains e.2.1)).map
       (fun e => (e.1, valid.indexOf e.2.1, e.2.2)) }, valid)

/-- `DataloaderBase.construct`: load features (labels parsing is external and
always yields the supplied matrix), record the original label count, apply the
optional label-range restriction and invalid-label removal in train mode, then
generate the batch partition.  Any exception raised inside propagates out of
the constructor. -/
def construct (cfg : Config) (feats : FeatureSet) (labels0 : SparseMat) :
    Except String LoaderState :=
  match load_features cfg.feature_type feats with
  | .error e => .error e
  | .ok features =>
    let lv : SparseMat × Option (List Nat) :=
      if cfg.mode = "train" then
        let sliced :=
          if cfg.start_index ≠ 0 ∨ cfg.end_index ≠ -1 then
            let endR : Int :=
              if cfg.end_index = -1 then (labels0.cols : Int) else cfg.end_index
            colSlice labels0 cfg.start_index endR.toNat
          else labels0
        let rv := remove_invalid sliced
        (rv.1, some rv.2)
      else (labels0, none)
    match gen_batches cfg.batch_order lv.1.cols feats.num_instances
        cfg.batch_size with
    | .error e => .error e
    | .ok batches =>
      .ok { features := features, labels := lv.1, num_labels_ := labels0.cols,
            valid_labels := lv.2, batch_size := cfg.batch_size,
            batch_order := cfg.batch_order, batches := batches }

/-- **C6.** Constructing a loader with a `feature_type` other than
`"sparse"`/`"dense"`, or a `batch_order` other than `"labels"`/`"instances"`,
fails immediately at construction time with the corresponding
configuration error (`NotImplementedError` in the source). -/
theorem construct_config_errors (cfg : Config) (f : FeatureSet) (M : SparseMat) :
    (cfg.feature_type ≠ "sparse" → cfg.feature_type ≠ "dense" →
      construct cfg f M = .error "Unknown feature type!") ∧
    ((cfg.feature_type = "sparse" ∨ cfg.feature_type = "dense") →
      cfg.batch_order ≠ "labels" → cfg.batch_order ≠ "instances" →
      construct cfg f M = .error "Unknown order for batching!") := by
  constructor
  · intro h1 h2
    simp [construct, load_features, h1, h2]
  · intro hft h1 h2
    have hlf : load_features cfg.feature_type f = .ok f := by
      rcases hft with h | h <;> simp [load_features, h]
    simp [construct, hlf, gen_batches, h1, h2]

def cfgC6a : Config :=
  { feature_type := "libsvm", mode := "train", batch_order := "labels",
    start_index := 0, end_index := -1, batch_size := 2 }

def cfgC6b : Config :=
  { feature_type := "dense", mode := "train", batch_order := "columns",
    start_index := 0, end_index := -1, batch_size := 2 }

def FC6 : FeatureSet := { num_instances := 2, num_features := 1, data := [[1], [2]] }

def MC6 : SparseMat := { rows := 2, cols := 2, entries := [(0, 0, 1), (1, 1, 1)] }

/-- Witness for C6: a `"libsvm"` feature type and a `"columns"` batch order
each abort construction with the corresponding error. -/
theorem construct_config_errors_witness :
    ("libsvm" ≠ "sparse" ∧ "libsvm" ≠ "dense" ∧
      construct cfgC6a FC6 MC6 = .error "Unknown feature type!") ∧
    (("dense" = "sparse" ∨ ("dense" : String) = "dense") ∧
      "columns" ≠ "labels" ∧ "columns" ≠ "instances" ∧
      construct cfgC6b FC6 MC6 = .error "Unknown order for batching!") :=
  ⟨⟨by decide, by decide,
      (construct_config_errors cfgC6a FC6 MC6).1 (by decide) (by decide)⟩,
    ⟨Or.inr (by decide), by decide, by decide,
      (construct_config_errors cfgC6b FC6 MC6).2 (Or.inr (by decide))
        (by decide) (by decide)⟩⟩

/-- **C10 (implicit).** The label-range restriction and invalid-label removal
run only in `"train"` mode: in `"predict"` mode the label matrix comes out of
construction exactly as loaded (no column slicing, no label removal, original
full shape, no valid-label bookkeeping), and even in train mode the column
slicing is skipped when `start_index = 0` and `end_index = -1` (the defaults)
while invalid-label removal still runs; with a non-default range the matrix is
the invalid-filtered column slice `[start_index, end_index)` with `-1`
resolved to the label count. -/
theorem construct_mode_gating (cfg : Config) (f : FeatureSet) (M : SparseMat) :
    (cfg.mode = "predict" → ∀ s2, construct cfg f M = .ok s2 →
      s2.labels = M ∧ s2.valid_labels = none) ∧
    (cfg.mode = "train" → cfg.start_index = 0 → cfg.end_index = -1 →
      ∀ s2, construct cfg f M = .ok s2 →
        s2.labels = (remove_invalid M).1 ∧
          s2.valid_labels = some (remove_invalid M).2) ∧
    (cfg.mode = "train" → (cfg.start_index ≠ 0 ∨ cfg.end_index ≠ -1) →
      ∀ s2, construct cfg f M = .ok s2 →
        s2.labels = (remove_invalid (colSlice M cfg.start_index
          (if cfg.end_index = -1 then (M.cols : Int) else cfg.end_index).toNat)).1 ∧
          s2.valid_labels = some (remove_invalid (colSlice M cfg.start_index
            (if cfg.end_index = -1 then (M.cols : Int) else cfg.end_index).toNat)).2) := by
  refine ⟨?_, ?_, ?_⟩
  · intro hm s2 hok
    have hm' : cfg.mode ≠ "train" := by rw [hm]; decide
    rw [construct] at hok
    cases hlf : load_features cfg.feature_type f with
    | error e => rw [hlf] at hok; exact absurd hok (by simp)
    | ok features =>
        rw [hlf] at hok
        simp only [if_neg hm'] at hok
        cases hgb : gen_batches cfg.batch_order M.cols f.num_instances
            cfg.batch_size with
        | error e => rw [hgb] at hok; exact absurd hok (by simp)
        | ok batches =>
            rw [hgb] at hok
            have := (Except.ok.injEq _ _).mp hok.symm
            rw [this]
            exact ⟨rfl, rfl⟩
  · intro hm h0 h1 s2 hok
    have hreq : ¬(cfg.start_index ≠ 0 ∨ cfg.end_index ≠ -1) := by
      rw [h0, h1]; simp
    rw [construct] at hok
    cases hlf : load_features cfg.feature_type f with
    | error e => rw [hlf] at hok; exact absurd hok (by simp)
    | ok features =>
        rw [hlf] at hok
        simp only [if_pos hm, if_neg hreq] at hok
        cases hgb : gen_batches cfg.batch_order (remove_invalid M).1.cols
            f.num_instances cfg.batch_size with
        | error e => rw [hgb] at hok; exact absurd hok (by simp)
        | ok batches =>
            rw [hgb] at hok
            have := (Except.ok.injEq _ _).mp hok.symm
            rw [this]
            exact ⟨rfl, rfl⟩
  · intro hm hreq s2 hok
    rw [construct] at hok
    cases hlf : load_features cfg.feature_type f with
    | error e => rw [hlf] at hok; exact absurd hok (by simp)
    | ok features =>
        rw [hlf] at hok
        simp only [if_pos hm, if_pos hreq] at hok
        cases hgb : gen_batches cfg.batch_order
            (remove_invalid (colSlice M cfg.start_index
              (if cfg.end_index = -1 then (M.cols : Int) else cfg.end_index).toNat)).1.cols
            f.num_instances cfg.batch_size with
        | error e => rw [hgb] at hok; exact absurd hok (by simp)
        | ok batches =>
            rw [hgb] at hok
            have := (Except.ok.injEq _ _).mp hok.symm
            rw [this]
            exact ⟨rfl, rfl⟩

/-! ## Label-range restriction without validation (C7) -/

theorem colSlice_cols_zero (M : SparseMat) (a b : Nat) (h : b ≤ a) :
    (colSlice M a b).cols = 0 := by
  simp only [colSlice]
  have h1 : min b M.cols ≤ min a M.cols := min_le_min h (le_refl M.cols)
  omega

theorem remove_invalid_cols_zero (M : SparseMat) (h : M.cols = 0) :
    (remove_invalid M).1.cols = 0 := by
  simp only [remove_invalid]
  rw [h]
  rfl

/-- **C7 (amended).** When a label-range restriction is requested in train
mode, the label matrix columns are sliced to `[start_index, end_index)` with
the `-1` sentinel resolving to the label count (this part of the claim is
covered by `construct_mode_gating`); but `construct` performs no
`end_index ≤ start_index` validation: the slice is simply empty, no
configuration error is raised, and with `batch_order = "instances"` (and a
positive batch size and instance count) construction succeeds, leaving a label
matrix with zero columns. -/
theorem construct_empty_slice (cfg : Config) (f : FeatureSet) (M : SparseMat)
    (hm : cfg.mode = "train")
    (hreq : cfg.start_index ≠ 0 ∨ cfg.end_index ≠ -1)
    (hend : (if cfg.end_index = -1 then (M.cols : Int) else cfg.end_index).toNat ≤
      cfg.start_index)
    (hft : cfg.feature_type = "sparse" ∨ cfg.feature_type = "dense")
    (hbo : cfg.batch_order = "instances")
    (hbs : 0 < cfg.batch_size) (hni : 0 < f.num_instances) :
    ∃ s2, construct cfg f M = .ok s2 ∧ s2.labels.cols = 0 := by
  have hlf : load_features cfg.feature_type f = .ok f := by
    rcases hft with h | h <;> simp [load_features, h]
  set b := (if cfg.end_index = -1 then (M.cols : Int) else cfg.end_index).toNat with hb
  have hrv : (remove_invalid (colSlice M cfg.start_index b)).1.cols = 0 :=
    remove_invalid_cols_zero _ (colSlice_cols_zero M _ _ hend)
  have hgb : gen_batches cfg.batch_order
      (remove_invalid (colSlice M cfg.start_index b)).1.cols f.num_instances
      cfg.batch_size = splitBatches f.num_instances cfg.batch_size := by
    rw [hbo]
    simp [gen_batches]
  have hsb := splitBatches_ok f.num_instances cfg.batch_size hni hbs
  simp only [construct, hlf, if_pos hm, if_pos hreq, ← hb, hgb, hsb]
  exact ⟨_, rfl, hrv⟩

def cfgC7 : Config :=
  { feature_type := "sparse", mode := "train", batch_order := "instances",
    start_index := 2, end_index := 1, batch_size := 2 }

def FC7 : FeatureSet :=
  { num_instances := 4, num_features := 2,
    data := [[1, 0], [0, 1], [1, 1], [1, 0]] }

def MC7 : SparseMat :=
  { rows := 4, cols := 5, entries := [(0, 0, 1), (1, 1, 1), (2, 2, 1)] }

/-- **C7 counterexample.** With `mode = "train"`, `start_index = 2`,
`end_index = 1` (so `end_index ≤ start_index` after resolution) and
`batch_order = "instances"`, construction succeeds — no `ConfigurationError`
(nor any other failure) is raised, contradicting the claim that construction
fails whenever `end_index ≤ start_index`. -/
theorem construct_no_range_check : (construct cfgC7 FC7 MC7).isOk = true := by
  decide

/-- Witness for the amended C7 theorem on the same concrete input. -/
theorem construct_empty_slice_witness :
    (cfgC7.mode = "train" ∧ (cfgC7.start_index ≠ 0 ∨ cfgC7.end_index ≠ -1) ∧
      (if cfgC7.end_index = -1 then (MC7.cols : Int) else cfgC7.end_index).toNat ≤
        cfgC7.start_index ∧
      (cfgC7.feature_type = "sparse" ∨ cfgC7.feature_type = "dense") ∧
      cfgC7.batch_order = "instances" ∧ 0 < cfgC7.batch_size ∧
      0 < FC7.num_instances) ∧
    ∃ s2, construct cfgC7 FC7 MC7 = .ok s2 ∧ s2.labels.cols = 0 :=
  ⟨⟨by decide, Or.inl (by decide), by decide, Or.inl (by decide), by decide,
      by decide, by decide⟩,
    construct_empty_slice cfgC7 FC7 MC7 (by decide) (Or.inl (by decide))
      (by decide) (Or.inl (by decide)) (by decide) (by decide) (by decide)⟩

/-! ## Checkpoint save / load (C9) -/

/-- The persisted record pickled by `DataloaderBase.save`. -/
structure Checkpoint where
  num_labels : Nat
  num_labels_ : Nat
  valid_labels : Option (List Nat)
deriving Repr, DecidableEq

/-- `DataloaderBase.save`: the state dictionary
`{'num_labels': self.num_labels, 'num_labels_': self.num_labels_,
'valid_labels': self.valid_labels}` (serialization itself is an external
collaborator, embedded as the identity on the record). -/
def save (s : LoaderState) : Checkpoint :=
  { num_labels := num_labels s, num_labels_ := s.num_labels_,
    valid_labels := s.valid_labels }

/-- The Python assignment `self.num_labels = v` executed by
`DataloaderBase.load`.  In `DataloaderBase`, `num_labels` is declared as a
read-only `@property` (it has a getter and no setter), so this assignment
raises `AttributeError` and nothing is restored. -/
def set_num_labels (s : LoaderState) (v : Nat) : Except String LoaderState :=
  .error "AttributeError: cannot set attribute"

/-- `DataloaderBase.load`: unpickle the record, then assign
`self.num_labels`, `self.num_labels_`, `self.valid_labels` in that order. -/
def load (s : LoaderState) (c : Checkpoint) : Except String LoaderState :=
  match set_num_labels s c.num_labels with
  | .error e => .error e
  | .ok s1 =>
      let s2 := { s1 with num_labels_ := c.num_labels_ }
      .ok { s2 with valid_labels := c.valid_labels }

/-- **C9 (code bug).** Saving the checkpoint record and loading it back does
NOT succeed: `DataloaderBase.load` assigns to `self.num_labels`, which is a
read-only `@property` of the same class, so every load raises
`AttributeError` before restoring anything.  The saved record itself does hold
the three bookkeeping values. -/
theorem load_after_save_fails (s : LoaderState) :
    save s = { num_labels := num_labels s, num_labels_ := s.num_labels_,
               valid_labels := s.valid_labels } ∧
    load s (save s) = .error "AttributeError: cannot set attribute" :=
  ⟨rfl, rfl⟩

/-! ## Shortlist update (`DataloaderShortlist.update_data_shortlist`) -/

/-- The state `update_data_shortlist` works on: the instance count and the
current sparse label matrix `self.labels.data` (whose column count is
`self.num_labels`). -/
structure ShortState where
  num_instances : Nat
  labels : SparseMat
deriving Repr, DecidableEq

/-- The negative list of one instance:
`_neg = list(filter(lambda x: x not in s_pos, indices))` where
`s_pos = set(_pos) | {num_labels}`. -/
def neg_indices (M : SparseMat) (L : Nat) (cand : List Nat) (i : Nat) : List Nat :=
  cand.filter (fun c => decide (¬(c ∈ rowIndices M i ∨ c = L)))

/-- The `(row, col, value)` triples one loop iteration appends:
`data += [1]*num_pos + [-1]*num_neg`, `cols += _pos + _neg`,
`rows += [idx]*(num_pos+num_neg)`. -/
def row_triples (M : SparseMat) (L : Nat) (sInd : List (List Nat)) (i : Nat) :
    List (Nat × Nat × Int) :=
  (rowIndices M i).map (fun c => (i, c, (1 : Int))) ++
    (neg_indices M L (sInd.getD i []) i).map (fun c => (i, c, (-1 : Int)))

/-- All triples accumulated by the loop over `range(num_instances)`. -/
def shortlist_triples (M : SparseMat) (L : Nat) (sInd : List (List Nat)) (n : Nat) :
    List (Nat × Nat × Int) :=
  ((List.range n).map (row_triples M L sInd)).flatten

/-- `scipy.sparse.csc_matrix((data, (rows, cols)), shape=(nr, nc))`: the coo
constructor validates every index against the shape (raising `ValueError`
before any matrix exists) and otherwise assembles the matrix; duplicate
positions are summed, which `matVal` realises on the stored triples. -/
def csc_matrix (triples : List (Nat × Nat × Int)) (nr nc : Nat) :
    Except String SparseMat :=
  if triples.all (fun e => decide (e.1 < nr ∧ e.2.1 < nc)) then
    .ok { rows := nr, cols := nc, entries := triples }
  else .error "ValueError: index exceeds matrix dimensions"

/-- `DataloaderShortlist.update_data_shortlist`: read per-row positives from
the current matrix, filter the candidate shortlist, assemble all triples, and
only on successful construction replace `self.labels.data`.  An exception from
the constructor propagates and leaves the state untouched. -/
def update_data_shortlist (s : ShortState) (sInd : List (List Nat)) :
    Except String ShortState :=
  match csc_matrix (shortlist_triples s.labels s.labels.cols sInd s.num_instances)
      s.num_instances s.labels.cols with
  | .error e => .error e
  | .ok m => .ok { s with labels := m }

/-! ### Helper lemmas for the shortlist update -/

theorem mem_rowIndices (M : SparseMat) (i c : Nat) :
    c ∈ rowIndices M i ↔ ∃ v, (i, c, v) ∈ M.entries := by
  constructor
  · intro h
    rcases List.mem_map.mp h with ⟨e, he, hc⟩
    rcases List.mem_filter.mp he with ⟨hel, hei⟩
    refine ⟨e.2.2, ?_⟩
    have hie : e.1 = i := by simpa using hei
    have : e = (i, c, e.2.2) := by
      obtain ⟨a, b, v⟩ := e
      simp_all
    rwa [this] at hel
  · rintro ⟨v, hv⟩
    exact List.mem_map.mpr ⟨(i, c, v), List.mem_filter.mpr ⟨hv, by simp⟩, rfl⟩

theorem nodup_rowIndices_aux (l : List (Nat × Nat × Int)) (i : Nat)
    (h : (l.map (fun e => (e.1, e.2.1))).Nodup) :
    ((l.filter (fun e => e.1 == i)).map (fun e => e.2.1)).Nodup := by
  induction l with
  | nil => simp
  | cons e l ih =>
      rw [List.map_cons, List.nodup_cons] at h
      by_cases he : e.1 = i
      · rw [List.filter_cons_of_pos (by simpa using he), List.map_cons,
          List.nodup_cons]
        refine ⟨?_, ih h.2⟩
        intro hmem
        rcases List.mem_map.mp hmem with ⟨e', he', heq⟩
        rcases List.mem_filter.mp he' with ⟨he'l, he'i⟩
        apply h.1
        have hi' : e'.1 = i := by simpa using he'i
        have hpos : (e'.1, e'.2.1) = (e.1, e.2.1) := by
          rw [heq, hi', he]
        exact List.mem_map.mpr ⟨e', he'l, hpos⟩
      · rw [List.filter_cons_of_neg (by simpa using he)]
        exact ih h.2

theorem rowIndices_lt_cols (M : SparseMat) (i : Nat) (hwf : WF M) :
    ∀ c ∈ rowIndices M i, c < M.cols := by
  intro c hc
  rcases (mem_rowIndices M i c).mp hc with ⟨v, hv⟩
  exact (hwf.1 _ hv).2.1

theorem mem_neg_indices (M : SparseMat) (L : Nat) (cand : List Nat) (i c : Nat) :
    c ∈ neg_indices M L cand i ↔
      c ∈ cand ∧ c ∉ rowIndices M i ∧ c ≠ L := by
  simp [neg_indices, List.mem_filter, not_or]

theorem row_triples_fst (M : SparseMat) (L : Nat) (sInd : List (List Nat))
    (i : Nat) : ∀ t ∈ row_triples M L sInd i, t.1 = i := by
  intro t ht
  rcases List.mem_append.mp ht with h | h <;>
  · rcases List.mem_map.mp h with ⟨c, _, hc⟩
    rw [← hc]

theorem row_triples_col (M : SparseMat) (L : Nat) (sInd : List (List Nat))
    (i : Nat) : ∀ t ∈ row_triples M L sInd i,
      (t.2.1 ∈ rowIndices M i ∧ t.2.2 = 1) ∨
        (t.2.1 ∈ neg_indices M L (sInd.getD i []) i ∧ t.2.2 = -1) := by
  intro t ht
  rcases List.mem_append.mp ht with h | h
  · left
    rcases List.mem_map.mp h with ⟨c, hc, hct⟩
    rw [← hct]
    exact ⟨hc, rfl⟩
  · right
    rcases List.mem_map.mp h with ⟨c, hc, hct⟩
    rw [← hct]
    exact ⟨hc, rfl⟩

theorem mem_shortlist_triples (M : SparseMat) (L : Nat) (sInd : List (List Nat))
    (n : Nat) (t : Nat × Nat × Int) :
    t ∈ shortlist_triples M L sInd n ↔
      ∃ k, k < n ∧ t ∈ row_triples M L sInd k := by
  constructor
  · intro ht
    rcases List.mem_flatten.mp ht with ⟨lst, hlst, htl⟩
    rcases List.mem_map.mp hlst with ⟨k, hk, hlk⟩
    exact ⟨k, List.mem_range.mp hk, hlk ▸ htl⟩
  · rintro ⟨k, hk, ht⟩
    exact List.mem_flatten.mpr ⟨row_triples M L sInd k,
      List.mem_map.mpr ⟨k, List.mem_range.mpr hk, rfl⟩, ht⟩

theorem sum_map_range_single (n i : Nat) (hi : i < n) (g : Nat → Int)
    (h0 : ∀ k, k < n → k ≠ i → g k = 0) :
    ((List.range n).map g).sum = g i := by
  induction n with
  | zero => omega
  | succ n ih =>
      rw [List.range_succ, List.map_append, List.sum_append]
      by_cases hin : i = n
      · have hz : ((List.range n).map g).sum = 0 :=
          List.sum_eq_zero (by
            intro x hx
            rcases List.mem_map.mp hx with ⟨k, hk, hkx⟩
            have := List.mem_range.mp hk
            rw [← hkx]
            exact h0 k (by omega) (by omega))
        simp [hz, hin]
      · have hi' : i < n := by omega
        rw [ih hi' (fun k hk hki => h0 k (by omega) hki)]
        have hgn : g n = 0 := h0 n (by omega) (fun h => hin h.symm)
        simp [hgn]

theorem sum_filter_map_const (l : List Nat) (i j : Nat) (v : Int) :
    ((((l.map (fun c => (i, c, v))).filter
        (fun e => e.1 == i && e.2.1 == j)).map (fun e => e.2.2)).sum) =
      (l.count j : Int) * v := by
  rw [List.filter_map, List.map_map]
  have hp : ((fun e : Nat × Nat × Int => e.1 == i && e.2.1 == j) ∘
      fun c => (i, c, v)) = fun c => c == j := by
    funext c
    simp
  rw [hp]
  have hv : ((fun e : Nat × Nat × Int => e.2.2) ∘ fun c => (i, c, v)) =
      fun _ => v := rfl
  rw [hv, List.map_const', List.sum_replicate, nsmul_eq_mul]
  congr 1
  rw [List.count_eq_countP, List.countP_eq_length_filter]

theorem filter_row_triples_ne (M : SparseMat) (L : Nat) (sInd : List (List Nat))
    (k i j : Nat) (hk : k ≠ i) :
    (row_triples M L sInd k).filter (fun e => e.1 == i && e.2.1 == j) = [] := by
  apply List.filter_eq_nil_iff.mpr
  intro t ht
  have hf := row_triples_fst M L sInd k t ht
  simp only [hf, Bool.and_eq_true, beq_iff_eq]
  rintro ⟨h1, _⟩
  exact hk h1

theorem matVal_shortlist (M : SparseMat) (L : Nat) (sInd : List (List Nat))
    (n nr nc i j : Nat) (hi : i < n) :
    matVal { rows := nr, cols := nc,
             entries := shortlist_triples M L sInd n } i j =
      ((rowIndices M i).count j : Int) -
        ((neg_indices M L (sInd.getD i []) i).count j : Int) := by
  have hstep : matVal (SparseMat.mk nr nc (shortlist_triples M L sInd n)) i j =
      ((List.range n).map (fun k =>
        (((row_triples M L sInd k).filter
          (fun e => e.1 == i && e.2.1 == j)).map (fun e => e.2.2)).sum)).sum := by
    simp only [matVal, shortlist_triples, List.filter_flatten, List.map_flatten,
      List.sum_flatten, List.map_map]
    rfl
  rw [hstep, sum_map_range_single n i hi _ (by
    intro k hk hki
    rw [filter_row_triples_ne M L sInd k i j hki]
    rfl)]
  rw [row_triples, List.filter_append, List.map_append, List.sum_append,
    sum_filter_map_const, sum_filter_map_const]
  ring

theorem shortlist_triples_bounds (s : ShortState) (sInd : List (List Nat))
    (hwf : WF s.labels) (hlen : sInd.length = s.num_instances)
    (hrange : ∀ l ∈ sInd, ∀ c ∈ l, c ≤ s.labels.cols) :
    ∀ t ∈ shortlist_triples s.labels s.labels.cols sInd s.num_instances,
      t.1 < s.num_instances ∧ t.2.1 < s.labels.cols := by
  intro t ht
  rcases (mem_shortlist_triples _ _ _ _ t).mp ht with ⟨k, hk, htk⟩
  have hf := row_triples_fst s.labels s.labels.cols sInd k t htk
  refine ⟨by rw [hf]; exact hk, ?_⟩
  rcases row_triples_col s.labels s.labels.cols sInd k t htk with
    ⟨hmem, _⟩ | ⟨hmem, _⟩
  · rcases (mem_rowIndices _ _ _).mp hmem with ⟨v, hv⟩
    exact (hwf.1 _ hv).2.1
  · rcases (mem_neg_indices _ _ _ _ _).mp hmem with ⟨hcc, _, hne⟩
    have hcand : sInd.getD k [] ∈ sInd := by
      rw [List.getD_eq_getElem _ _ (by omega)]
      exact List.getElem_mem _
    have := hrange _ hcand _ hcc
    omega

theorem update_data_shortlist_ok (s : ShortState) (sInd : List (List Nat))
    (hall : (shortlist_triples s.labels s.labels.cols sInd s.num_instances).all
      (fun e => decide (e.1 < s.num_instances ∧ e.2.1 < s.labels.cols)) = true) :
    update_data_shortlist s sInd = .ok
      (ShortState.mk s.num_instances
        (SparseMat.mk s.num_instances s.labels.cols
          (shortlist_triples s.labels s.labels.cols sInd s.num_instances))) := by
  unfold update_data_shortlist csc_matrix
  rw [if_pos hall]

/-- **C3.** After a successful shortlist update the new label matrix has the
same logical shape as before; for every instance `i` and every label `p` in
the positive set the loop reads from the pre-update matrix, the new matrix has
value `+1` at `(i, p)`; and, provided every instance candidate list holds
distinct indices, row `i` stores `|P_i| + |N_i|` non-zero values, where `N_i`
is the filtered negative list. -/
theorem update_shortlist_post (s : ShortState) (sInd : List (List Nat))
    (hwf : WF s.labels) (hshape : s.labels.rows = s.num_instances)
    (hlen : sInd.length = s.num_instances)
    (hndc : ∀ l ∈ sInd, l.Nodup)
    (hrange : ∀ l ∈ sInd, ∀ c ∈ l, c ≤ s.labels.cols) :
    ∃ s2, update_data_shortlist s sInd = .ok s2 ∧
      s2.labels.rows = s.labels.rows ∧ s2.labels.cols = s.labels.cols ∧
      ∀ i, i < s.num_instances →
        (∀ p ∈ rowIndices s.labels i, matVal s2.labels i p = 1) ∧
        rowNNZ s2.labels i =
          (rowIndices s.labels i).length +
            (neg_indices s.labels s.labels.cols (sInd.getD i []) i).length := by
  have hall : (shortlist_triples s.labels s.labels.cols sInd s.num_instances).all
      (fun e => decide (e.1 < s.num_instances ∧ e.2.1 < s.labels.cols)) = true :=
    List.all_eq_true.mpr (fun t ht => decide_eq_true
      (shortlist_triples_bounds s sInd hwf hlen hrange t ht))
  refine ⟨_, update_data_shortlist_ok s sInd hall, hshape.symm, rfl, ?_⟩
  intro i hi
  have hndP : (rowIndices s.labels i).Nodup :=
    nodup_rowIndices_aux s.labels.entries i hwf.2
  have hcand : sInd.getD i [] ∈ sInd := by
    rw [List.getD_eq_getElem _ _ (by omega)]
    exact List.getElem_mem _
  have hndN : (neg_indices s.labels s.labels.cols (sInd.getD i []) i).Nodup :=
    (hndc _ hcand).filter _
  have hNbound : ∀ c ∈ neg_indices s.labels s.labels.cols (sInd.getD i []) i,
      c < s.labels.cols := by
    intro c hc
    rcases (mem_neg_indices _ _ _ _ _).mp hc with ⟨hcc, _, hne⟩
    have := hrange _ hcand _ hcc
    omega
  have hPbound := rowIndices_lt_cols s.labels i hwf
  have hdisj : ∀ c ∈ neg_indices s.labels s.labels.cols (sInd.getD i []) i,
      c ∉ rowIndices s.labels i :=
    fun c hc => ((mem_neg_indices _ _ _ _ _).mp hc).2.1
  constructor
  · intro p hp
    rw [matVal_shortlist s.labels s.labels.cols sInd s.num_instances
      s.num_instances s.labels.cols i p hi]
    rw [List.count_eq_one_of_mem hndP hp,
      List.count_eq_zero.mpr (fun hmem => (hdisj p hmem) hp)]
    norm_num
  · have hfc : (List.range s.labels.cols).filter
        (fun j => decide (matVal (SparseMat.mk s.num_instances s.labels.cols
          (shortlist_triples s.labels s.labels.cols sInd s.num_instances)) i j ≠ 0)) =
        (List.range s.labels.cols).filter
          (fun j => decide (j ∈ rowIndices s.labels i ++
            neg_indices s.labels s.labels.cols (sInd.getD i []) i)) := by
      apply List.filter_congr
      intro j hj
      rw [decide_eq_decide,
        matVal_shortlist s.labels s.labels.cols sInd s.num_instances
          s.num_instances s.labels.cols i j hi, List.mem_append]
      constructor
      · intro hne
        by_contra hcon
        push_neg at hcon
        rw [List.count_eq_zero.mpr hcon.1, List.count_eq_zero.mpr hcon.2] at hne
        simp at hne
      · rintro (hP | hN)
        · rw [List.count_eq_one_of_mem hndP hP,
            List.count_eq_zero.mpr (fun hm => (hdisj j hm) hP)]
          norm_num
        · rw [List.count_eq_zero.mpr (fun hm => (hdisj j hN) hm),
            List.count_eq_one_of_mem hndN hN]
          norm_num
    have happ : (rowIndices s.labels i ++
        neg_indices s.labels s.labels.cols (sInd.getD i []) i).Nodup :=
      List.Nodup.append hndP hndN (fun a haP haN => (hdisj a haN) haP)
    have hsub : ∀ x ∈ rowIndices s.labels i ++
        neg_indices s.labels s.labels.cols (sInd.getD i []) i,
        x < s.labels.cols := by
      intro x hx
      rcases List.mem_append.mp hx with h | h
      exacts [hPbound x h, hNbound x h]
    rw [rowNNZ]
    rw [show (SparseMat.mk s.num_instances s.labels.cols
      (shortlist_triples s.labels s.labels.cols sInd s.num_instances)).cols =
      s.labels.cols from rfl]
    rw [hfc, length_filter_range_mem s.labels.cols _ happ hsub,
      List.length_append]

def SC3 : ShortState :=
  ShortState.mk 3 (SparseMat.mk 3 4 [(0, 0, 1), (0, 2, 1), (1, 1, 1), (2, 3, 1)])

def sIndC3 : List (List Nat) := [[1, 2, 4], [0, 3], [0, 1]]

/-- Witness for C3: three instances, four labels (sentinel index 4),
per-instance shortlists `[[1,2,4],[0,3],[0,1]]`. -/
theorem update_shortlist_post_witness :
    WF SC3.labels ∧ SC3.labels.rows = SC3.num_instances ∧
    sIndC3.length = SC3.num_instances ∧ (∀ l ∈ sIndC3, l.Nodup) ∧
    (∀ l ∈ sIndC3, ∀ c ∈ l, c ≤ SC3.labels.cols) ∧
    (∃ s2, update_data_shortlist SC3 sIndC3 = .ok s2 ∧
      s2.labels.rows = SC3.labels.rows ∧ s2.labels.cols = SC3.labels.cols ∧
      ∀ i, i < SC3.num_instances →
        (∀ p ∈ rowIndices SC3.labels i, matVal s2.labels i p = 1) ∧
        rowNNZ s2.labels i =
          (rowIndices SC3.labels i).length +
            (neg_indices SC3.labels SC3.labels.cols (sIndC3.getD i []) i).length) :=
  ⟨by decide, by decide, by decide, by decide, by decide,
    update_shortlist_post SC3 sIndC3 (by decide) (by decide) (by decide)
      (by decide) (by decide)⟩

/-- **C4.** In the shortlist update, the emitted negative set of instance `i`
is exactly `C_i \ (P_i ∪ {sentinel})`, the sentinel being the label count; the
loop emits `|P_i|` entries of value `+1` at columns `P_i` and `|N_i|` entries
of value `-1` at columns `N_i`; and no emitted triple carries the sentinel
column index. -/
theorem shortlist_negative_set (s : ShortState) (sInd : List (List Nat))
    (hwf : WF s.labels) (hlen : sInd.length = s.num_instances)
    (i : Nat) (hi : i < s.num_instances) (hndc : (sInd.getD i []).Nodup) :
    (neg_indices s.labels s.labels.cols (sInd.getD i []) i).toFinset =
      (sInd.getD i []).toFinset \
        ((rowIndices s.labels i).toFinset ∪ {s.labels.cols}) ∧
    ((row_triples s.labels s.labels.cols sInd i).filter
        (fun e => e.2.2 == 1)).length = (rowIndices s.labels i).length ∧
    ((row_triples s.labels s.labels.cols sInd i).filter
        (fun e => e.2.2 == -1)).length =
      (neg_indices s.labels s.labels.cols (sInd.getD i []) i).length ∧
    (neg_indices s.labels s.labels.cols (sInd.getD i []) i).length =
      ((sInd.getD i []).toFinset \
        ((rowIndices s.labels i).toFinset ∪ {s.labels.cols})).card ∧
    ∀ t ∈ shortlist_triples s.labels s.labels.cols sInd s.num_instances,
      t.2.1 ≠ s.labels.cols := by
  have hset : (neg_indices s.labels s.labels.cols (sInd.getD i []) i).toFinset =
      (sInd.getD i []).toFinset \
        ((rowIndices s.labels i).toFinset ∪ {s.labels.cols}) := by
    ext x
    simp only [List.mem_toFinset, Finset.mem_sdiff, Finset.mem_union,
      Finset.mem_singleton, mem_neg_indices, not_or]
  have hc1 : ((row_triples s.labels s.labels.cols sInd i).filter
      (fun e => e.2.2 == 1)).length = (rowIndices s.labels i).length := by
    rw [row_triples, List.filter_append, List.filter_map, List.filter_map]
    have e1 : ((fun e : Nat × Nat × Int => e.2.2 == 1) ∘
        fun c : Nat => (i, c, (1 : Int))) = fun _ => true := by
      funext c; rfl
    have e2 : ((fun e : Nat × Nat × Int => e.2.2 == 1) ∘
        fun c : Nat => (i, c, (-1 : Int))) = fun _ => false := by
      funext c; rfl
    rw [e1, e2]
    simp
  have hc2 : ((row_triples s.labels s.labels.cols sInd i).filter
      (fun e => e.2.2 == -1)).length =
      (neg_indices s.labels s.labels.cols (sInd.getD i []) i).length := by
    rw [row_triples, List.filter_append, List.filter_map, List.filter_map]
    have e1 : ((fun e : Nat × Nat × Int => e.2.2 == -1) ∘
        fun c : Nat => (i, c, (1 : Int))) = fun _ => false := by
      funext c; rfl
    have e2 : ((fun e : Nat × Nat × Int => e.2.2 == -1) ∘
        fun c : Nat => (i, c, (-1 : Int))) = fun _ => true := by
      funext c; rfl
    rw [e1, e2]
    simp
  have hcard : (neg_indices s.labels s.labels.cols (sInd.getD i []) i).length =
      ((sInd.getD i []).toFinset \
        ((rowIndices s.labels i).toFinset ∪ {s.labels.cols})).card := by
    rw [← hset]
    exact (List.toFinset_card_of_nodup (hndc.filter _)).symm
  refine ⟨hset, hc1, hc2, hcard, ?_⟩
  intro t ht
  rcases (mem_shortlist_triples _ _ _ _ t).mp ht with ⟨k, hk, htk⟩
  rcases row_triples_col s.labels s.labels.cols sInd k t htk with
    ⟨hm, _⟩ | ⟨hm, _⟩
  · have := rowIndices_lt_cols s.labels k hwf _ hm
    omega
  · exact ((mem_neg_indices _ _ _ _ _).mp hm).2.2

def SC4 : ShortState :=
  ShortState.mk 2 (SparseMat.mk 2 3 [(0, 0, 1), (1, 2, 1)])

def sIndC4 : List (List Nat) := [[0, 1, 3], [1, 2]]

/-- Witness for C4: two instances, three labels (sentinel index 3), instance 0
has positives `{0}` and candidates `[0, 1, 3]`, so its negative set is `{1}`
(the positive 0 and the sentinel 3 are dropped). -/
theorem shortlist_negative_set_witness :
    WF SC4.labels ∧ sIndC4.length = SC4.num_instances ∧ 0 < SC4.num_instances ∧
    (sIndC4.getD 0 []).Nodup ∧
    ((neg_indices SC4.labels SC4.labels.cols (sIndC4.getD 0 []) 0).toFinset =
      (sIndC4.getD 0 []).toFinset \
        ((rowIndices SC4.labels 0).toFinset ∪ {SC4.labels.cols}) ∧
    ((row_triples SC4.labels SC4.labels.cols sIndC4 0).filter
        (fun e => e.2.2 == 1)).length = (rowIndices SC4.labels 0).length ∧
    ((row_triples SC4.labels SC4.labels.cols sIndC4 0).filter
        (fun e => e.2.2 == -1)).length =
      (neg_indices SC4.labels SC4.labels.cols (sIndC4.getD 0 []) 0).length ∧
    (neg_indices SC4.labels SC4.labels.cols (sIndC4.getD 0 []) 0).length =
      ((sIndC4.getD 0 []).toFinset \
        ((rowIndices SC4.labels 0).toFinset ∪ {SC4.labels.cols})).card ∧
    ∀ t ∈ shortlist_triples SC4.labels SC4.labels.cols sIndC4 SC4.num_instances,
      t.2.1 ≠ SC4.labels.cols) :=
  ⟨by decide, by decide, by decide, by decide,
    shortlist_negative_set SC4 sIndC4 (by decide) (by decide) 0 (by decide)
      (by decide)⟩

/-- **C5.** If some instance shortlist candidate lies outside
`[0, label_count)` and is not the sentinel `label_count` (which is filtered
out), the update fails with the index error raised by the sparse constructor
while validating the triples (so no new matrix is ever built), and because the
assignment `self.labels.data = ...` runs only after a successful construction,
the exception leaves the label matrix exactly as it was (the erroring call
returns no new state). -/
theorem update_shortlist_oob (s : ShortState) (sInd : List (List Nat))
    (hwf : WF s.labels) (hlen : sInd.length = s.num_instances)
    (i : Nat) (hi : i < s.num_instances) (c : Nat)
    (hc : c ∈ sInd.getD i []) (hoob : s.labels.cols < c) :
    update_data_shortlist s sInd =
      .error "ValueError: index exceeds matrix dimensions" := by
  have hcneg : c ∈ neg_indices s.labels s.labels.cols (sInd.getD i []) i := by
    rw [mem_neg_indices]
    refine ⟨hc, ?_, by omega⟩
    intro hmem
    have := rowIndices_lt_cols s.labels i hwf c hmem
    omega
  have htrip : ((i, c, (-1 : Int)) : Nat × Nat × Int) ∈
      shortlist_triples s.labels s.labels.cols sInd s.num_instances := by
    rw [mem_shortlist_triples]
    exact ⟨i, hi, List.mem_append.mpr
      (Or.inr (List.mem_map.mpr ⟨c, hcneg, rfl⟩))⟩
  have hall : (shortlist_triples s.labels s.labels.cols sInd s.num_instances).all
      (fun e => decide (e.1 < s.num_instances ∧ e.2.1 < s.labels.cols)) = false := by
    rw [Bool.eq_false_iff]
    intro h
    have h2 := of_decide_eq_true (List.all_eq_true.mp h _ htrip)
    have : c < s.labels.cols := h2.2
    omega
  unfold update_data_shortlist csc_matrix
  rw [if_neg (by rw [hall]; exact Bool.false_ne_true)]

def SC5 : ShortState := ShortState.mk 1 (SparseMat.mk 1 3 [(0, 0, 1)])

def sIndC5 : List (List Nat) := [[0, 1, 5]]

/-- Witness for C5 (the spec's scenario 2): one instance, three labels
(sentinel 3), candidates `[0, 1, 5]`; candidate 5 is out of range, so the
update errors. -/
theorem update_shortlist_oob_witness :
    WF SC5.labels ∧ sIndC5.length = SC5.num_instances ∧ 0 < SC5.num_instances ∧
    (5 : Nat) ∈ sIndC5.getD 0 [] ∧ SC5.labels.cols < 5 ∧
    update_data_shortlist SC5 sIndC5 =
      .error "ValueError: index exceeds matrix dimensions" :=
  ⟨by decide, by decide, by decide, by decide, by decide,
    update_shortlist_oob SC5 sIndC5 (by decide) (by decide) 0 (by decide) 5
      (by decide) (by decide)⟩

/-! ## Witness data for C10 -/

def FC10 : FeatureSet := FeatureSet.mk 2 1 [[1], [0]]

def MC10 : SparseMat := SparseMat.mk 2 2 [(0, 0, 1)]

def MC10c : SparseMat := SparseMat.mk 2 2 [(0, 0, 1), (1, 1, 1)]

def cfg10a : Config := Config.mk "sparse" "predict" "labels" 0 (-1) 1

def cfg10b : Config := Config.mk "sparse" "train" "labels" 0 (-1) 1

def cfg10c : Config := Config.mk "sparse" "train" "labels" 1 (-1) 1

def s10a : LoaderState := LoaderState.mk FC10 MC10 2 none 1 "labels" [[0], [1]]

def s10b : LoaderState :=
  LoaderState.mk FC10 (SparseMat.mk 2 1 [(0, 0, 1)]) 2 (some [0]) 1 "labels" [[0]]

def s10c : LoaderState :=
  LoaderState.mk FC10 (SparseMat.mk 2 1 [(1, 0, 1)]) 2 (some [0]) 1 "labels" [[0]]

/-- Witness for C10: the three mode/range combinations on concrete loaders. -/
theorem construct_mode_gating_witness :
    (cfg10a.mode = "predict" ∧ construct cfg10a FC10 MC10 = .ok s10a ∧
      s10a.labels = MC10 ∧ s10a.valid_labels = none) ∧
    (cfg10b.mode = "train" ∧ cfg10b.start_index = 0 ∧ cfg10b.end_index = -1 ∧
      construct cfg10b FC10 MC10 = .ok s10b ∧
      s10b.labels = (remove_invalid MC10).1 ∧
      s10b.valid_labels = some (remove_invalid MC10).2) ∧
    (cfg10c.mode = "train" ∧ (cfg10c.start_index ≠ 0 ∨ cfg10c.end_index ≠ -1) ∧
      construct cfg10c FC10 MC10c = .ok s10c ∧
      s10c.labels = (remove_invalid (colSlice MC10c cfg10c.start_index
        (if cfg10c.end_index = -1 then (MC10c.cols : Int)
          else cfg10c.end_index).toNat)).1 ∧
      s10c.valid_labels = some (remove_invalid (colSlice MC10c cfg10c.start_index
        (if cfg10c.end_index = -1 then (MC10c.cols : Int)
          else cfg10c.end_index).toNat)).2) := by
  have hokA : construct cfg10a FC10 MC10 = .ok s10a := by rfl
  have hA := (construct_mode_gating cfg10a FC10 MC10).1 rfl s10a hokA
  have hokB : construct cfg10b FC10 MC10 = .ok s10b := by rfl
  have hB := (construct_mode_gating cfg10b FC10 MC10).2.1 rfl rfl rfl s10b hokB
  have hokC : construct cfg10c FC10 MC10c = .ok s10c := by rfl
  have hC := (construct_mode_gating cfg10c FC10 MC10c).2.2 rfl
    (Or.inl (by decide)) s10c hokC
  exact ⟨⟨rfl, hokA, hA.1, hA.2⟩, ⟨rfl, rfl, rfl, hokB, hB.1, hB.2⟩,
    ⟨rfl, Or.inl (by decide), hokC, hC.1, hC.2⟩⟩

end XC
